import Mathlib

/-!
Verification model of `bangla_word_crawler.py` (repository
Bangla-Word-Web-Crawler): a shallow embedding of the crawler core in Lean 4,
with theorems settling the behavioural claims about `fetch_page`,
`extract_links`, `search_keywords`, `crawl_domain` and `run`.

Library collaborators (the `requests` session, BeautifulSoup parsing and
`urllib.parse.urljoin`) are modelled as explicit parameters: a network oracle
mapping each requested URL to the outcome of `session.get`, a `get_text`
function for the visible-text rendering of a page, a `find_all` function for
the href attributes of its anchors, and a `urljoin` resolver.  URLs are kept
in parsed form, as the component tuple `urllib.parse.urlparse` produces.
-/

namespace BanglaCrawler

/-- A parsed URL, the component view `urllib.parse.urlparse` gives: scheme,
netloc (host), path, query, fragment.  The rarely used `params` component is
folded into `path`; no URL in this development carries it. -/
structure Url where
  scheme : String
  netloc : String
  path : String
  query : String
  fragment : String
deriving DecidableEq

/-- `href.split("#")[0]` of line 83, on a parsed URL: the fragment marker and
everything after it are dropped, all other components are kept. -/
def stripFragment (u : Url) : Url := { u with fragment := "" }

/-- Lines 51 to 56 of `fetch_page`: the fallback URL is the requested URL with
the scheme toggled, `http` when the initial scheme was `https` and `https`
otherwise (`parsed_url._replace(scheme=fallback_scheme)` keeps netloc, path,
query and fragment unchanged). -/
def fallback_url (u : Url) : Url :=
  { u with scheme := if u.scheme = "https" then "http" else "https" }

/-- Python `needle in haystack` on strings, and the semantics of
`re.search(re.escape(word), text)` of line 93: literal substring containment
(the escaped pattern matches exactly the literal word). -/
def strContains (haystack needle : String) : Bool :=
  decide (needle.data <:+: haystack.data)

/-- The outcome of one `session.get` call: either a raised
`requests.RequestException` (timeout, connection refused, invalid scheme, ...)
or a response carrying a status code, the `Content-Type` header (the empty
string when the header is absent, as in `r.headers.get("Content-Type", "")`)
and the body text. -/
inductive GetOutcome where
  | exn : GetOutcome
  | resp (status : Nat) (contentType : String) (text : String) : GetOutcome
deriving DecidableEq

/-- The network as one crawl observes it: a deterministic map from the
requested URL to the outcome of `session.get` on it. -/
def Network : Type := Url → GetOutcome

/-- `Response.raise_for_status()` raises `requests.HTTPError` (a
`RequestException`) exactly for the client and server error statuses,
`400 <= status < 600`; every other status passes through silently. -/
def raise_for_status (status : Nat) : Bool := 400 ≤ status && status < 600

/-- What one guarded `session.get` attempt inside `fetch_page` does:
`body t` means the attempt reached its `return r.text` (no exception, and the
`Content-Type` header contains `"text/html"`); `raised` means `session.get`
or `raise_for_status` raised a `RequestException`; `fellThrough` means no
exception was raised but the content-type guard failed, so control falls past
the `try` block without returning. -/
inductive AttemptResult where
  | body (t : String) : AttemptResult
  | raised : AttemptResult
  | fellThrough : AttemptResult
deriving DecidableEq

/-- One guarded attempt of `fetch_page` (lines 59 to 62 for the primary URL,
lines 66 to 70 for the fallback URL). -/
def attempt (net : Network) (u : Url) : AttemptResult :=
  match net u with
  | GetOutcome.exn => AttemptResult.raised
  | GetOutcome.resp status contentType text =>
      if raise_for_status status then AttemptResult.raised
      else if strContains contentType "text/html" then AttemptResult.body text
      else AttemptResult.fellThrough

/-- `fetch_page` (lines 47 to 73), instrumented with the list of URLs actually
requested, in request order.  Only a raised `RequestException` enters the
`except` arm that retries on `fallback_url`; a response that fails the
content-type guard falls through to the final `return None` with no second
request.  The function returns at most the body text: which scheme produced it
is not part of the result. -/
def fetch_page (net : Network) (url : Url) : Option String × List Url :=
  match attempt net url with
  | AttemptResult.body t => (some t, [url])
  | AttemptResult.fellThrough => (none, [url])
  | AttemptResult.raised =>
      match attempt net (fallback_url url) with
      | AttemptResult.body t => (some t, [url, fallback_url url])
      | _ => (none, [url, fallback_url url])

/-- Python `set.add` on a duplicate-free list: append at the tail unless the
element is already present. -/
def setAdd (l : List Url) (u : Url) : List Url := if u ∈ l then l else l ++ [u]

/-- `extract_links` (lines 75 to 84), parameterized by the two library
services it uses: `find_all` (BeautifulSoup: the href strings of the anchors
of the page, in document order) and `urljoin` (urllib: resolution of an href
against the base URL).  A resolved href is kept exactly when its netloc equals
the netloc of the base URL; the kept link is fragment-stripped and added to a
set, modelled as a duplicate-free list in insertion order. -/
def extract_links (find_all : String → List String) (urljoin : Url → String → Url)
    (base_url : Url) (html : String) : List Url :=
  (find_all html).foldl
    (fun links a =>
      if (urljoin base_url a).netloc = base_url.netloc then
        setAdd links (stripFragment (urljoin base_url a))
      else links)
    []

/-- `search_keywords` (lines 86 to 95), parameterized by `get_text`
(BeautifulSoup: the visible-text rendering of the page, as in
`get_text(" ", strip=True)`).  Each keyword, in list order, is appended to the
result exactly when `re.search(re.escape(word), text)` finds it, that is, when
it occurs in the text as a literal substring. -/
def search_keywords (get_text : String → String) (html : String)
    (keywords : List String) : List String :=
  keywords.foldl
    (fun found word => if strContains (get_text html) word then found ++ [word] else found)
    []

/-- The library collaborators one domain crawl uses: the fetch function
(`self.fetch_page`, possibly instantiated with `fetch_page` over a network
oracle), and the BeautifulSoup and urllib services. -/
structure Env where
  fetch : Url → Option String
  get_text : String → String
  find_all : String → List String
  urljoin : Url → String → Url

/-- The local state of one domain crawl (`crawl_domain`, lines 100 to 127):
`visited` is the Python set (kept as a duplicate-free list in insertion
order), `to_visit` the FIFO deque with its head at the front, `pages_crawled`
the budget counter, and `found_matches` the records this crawl appends to the
shared result list, in append order.  Two instrumentation fields record the
history of the run: `fetch_log` lists the URLs passed to `self.fetch_page`, in
call order, and `enqueue_log` lists every URL ever placed on the frontier,
the seed included. -/
structure CrawlState where
  visited : List Url
  to_visit : List Url
  pages_crawled : Nat
  found_matches : List (Url × String)
  fetch_log : List Url
  enqueue_log : List Url
deriving DecidableEq

/-- The `while` loop of `crawl_domain` (lines 105 to 128).  The loop runs
while the frontier is non-empty and the budget is not reached; a dequeued URL
already in `visited` is skipped; otherwise it is marked visited, fetched, and
on a falsy result (`if not html`: `None` or the empty string) skipped without
a budget charge; otherwise its matches are appended, its same-domain links not
yet visited are enqueued at the tail, and the budget counter is incremented.
Termination is by the lexicographic measure (budget remaining, frontier
length): a processed page decreases the budget remaining, every other
iteration shortens the frontier. -/
def crawl_loop (env : Env) (keywords : List String) (max_pages : Nat)
    (s : CrawlState) : CrawlState :=
  match hq : s.to_visit with
  | [] => s
  | url :: rest =>
    if hp : s.pages_crawled < max_pages then
      if url ∈ s.visited then
        crawl_loop env keywords max_pages { s with to_visit := rest }
      else
        match env.fetch url with
        | none =>
            crawl_loop env keywords max_pages
              { s with to_visit := rest, visited := s.visited ++ [url],
                       fetch_log := s.fetch_log ++ [url] }
        | some html =>
            if html = "" then
              crawl_loop env keywords max_pages
                { s with to_visit := rest, visited := s.visited ++ [url],
                         fetch_log := s.fetch_log ++ [url] }
            else
              crawl_loop env keywords max_pages
                { visited := s.visited ++ [url],
                  to_visit := rest ++ (extract_links env.find_all env.urljoin url html).filter
                      (fun l => decide (l ∉ s.visited ++ [url])),
                  pages_crawled := s.pages_crawled + 1,
                  found_matches := s.found_matches ++
                      (search_keywords env.get_text html keywords).map (fun w => (url, w)),
                  fetch_log := s.fetch_log ++ [url],
                  enqueue_log := s.enqueue_log ++
                      (extract_links env.find_all env.urljoin url html).filter
                        (fun l => decide (l ∉ s.visited ++ [url])) }
    else s
termination_by (max_pages - s.pages_crawled, s.to_visit.length)
decreasing_by
  all_goals first
    | (apply Prod.Lex.right
       rw [hq]
       exact Nat.lt_succ_self _)
    | (apply Prod.Lex.left
       omega)

/-- The seed URL of line 102, `https://{domain}` as `urlparse` reads it:
scheme `https`, netloc the bare domain, empty path, query and fragment. -/
def seed_url (domain : String) : Url :=
  { scheme := "https", netloc := domain, path := "", query := "", fragment := "" }

/-- `crawl_domain` (lines 97 to 130): fresh empty visited set, frontier seeded
with the secure-scheme root of the domain, zero pages crawled, then the loop. -/
def crawl_domain (env : Env) (domain : String) (keywords : List String)
    (max_pages : Nat) : CrawlState :=
  crawl_loop env keywords max_pages
    { visited := [], to_visit := [seed_url domain], pages_crawled := 0,
      found_matches := [], fetch_log := [], enqueue_log := [seed_url domain] }

/-- `run` (lines 132 to 142), with the thread pool abstracted to the list of
per-domain task outcomes: for each submitted domain, whether its
`crawl_domain` call returned without an unhandled exception, and the match
records it appended to the shared `found_matches` list before returning or
failing.  The `as_completed` loop calls `future.result()` on every future,
which re-raises the exception of any failed task; `save_results` (the CSV
write, line 141) runs only when that loop finishes without raising.  The
result is the list of rows written to the output file, or `none` when `run`
itself raises before saving. -/
def run (tasks : List (Bool × List (Url × String))) : Option (List (Url × String)) :=
  if tasks.all (fun t => t.1) then
    some (tasks.foldr (fun t acc => t.2 ++ acc) [])
  else none

/-! ### Basic lemmas about the extractor and the keyword search -/

theorem mem_append_singleton {α : Type} {l : List α} {a u : α} :
    u ∈ l ++ [a] ↔ u ∈ l ∨ u = a := by
  simp

theorem nodup_append_singleton {α : Type} {l : List α} {a : α}
    (h : l.Nodup) (ha : a ∉ l) : (l ++ [a]).Nodup := by
  simp [List.nodup_append, h, ha]

theorem countP_append_singleton {α : Type} (p : α → Bool) (l : List α) (a : α) :
    (l ++ [a]).countP p = l.countP p + (if p a then 1 else 0) := by
  simp [List.countP_append, List.countP_cons]

theorem mem_setAdd {l : List Url} {v u : Url} : u ∈ setAdd l v ↔ u ∈ l ∨ u = v := by
  by_cases h : v ∈ l
  · simp only [setAdd, if_pos h]
    constructor
    · exact Or.inl
    · rintro (hu | rfl)
      · exact hu
      · exact h
  · simp [setAdd, if_neg h]

theorem nodup_setAdd {l : List Url} {v : Url} (h : l.Nodup) : (setAdd l v).Nodup := by
  by_cases hv : v ∈ l
  · simpa [setAdd, if_pos hv] using h
  · rw [setAdd, if_neg hv]
    exact nodup_append_singleton h hv

theorem mem_extract_links_aux (uj : Url → String → Url) (base : Url)
    (as : List String) (acc : List Url) (u : Url) :
    u ∈ as.foldl
        (fun links a =>
          if (uj base a).netloc = base.netloc then
            setAdd links (stripFragment (uj base a))
          else links) acc ↔
      u ∈ acc ∨ ∃ a, a ∈ as ∧ (uj base a).netloc = base.netloc ∧
        u = stripFragment (uj base a) := by
  induction as generalizing acc with
  | nil => simp
  | cons a as ih =>
    simp only [List.foldl_cons]
    rw [ih]
    by_cases h : (uj base a).netloc = base.netloc
    · rw [if_pos h, mem_setAdd]
      constructor
      · rintro ((hu | rfl) | ⟨b, hb, hbn, rfl⟩)
        · exact Or.inl hu
        · exact Or.inr ⟨a, List.mem_cons_self a as, h, rfl⟩
        · exact Or.inr ⟨b, List.mem_cons_of_mem a hb, hbn, rfl⟩
      · rintro (hu | ⟨b, hb, hbn, rfl⟩)
        · exact Or.inl (Or.inl hu)
        · rcases List.mem_cons.1 hb with rfl | hb
          · exact Or.inl (Or.inr rfl)
          · exact Or.inr ⟨b, hb, hbn, rfl⟩
    · rw [if_neg h]
      constructor
      · rintro (hu | ⟨b, hb, hbn, rfl⟩)
        · exact Or.inl hu
        · exact Or.inr ⟨b, List.mem_cons_of_mem a hb, hbn, rfl⟩
      · rintro (hu | ⟨b, hb, hbn, rfl⟩)
        · exact Or.inl hu
        · rcases List.mem_cons.1 hb with rfl | hb
          · exact absurd hbn h
          · exact Or.inr ⟨b, hb, hbn, rfl⟩

/-- Membership in the link set `extract_links` returns: exactly the
fragment-stripped resolutions of the anchors of the page whose netloc equals
the netloc of the base URL. -/
theorem mem_extract_links (fa : String → List String) (uj : Url → String → Url)
    (base : Url) (html : String) (u : Url) :
    u ∈ extract_links fa uj base html ↔
      ∃ a, a ∈ fa html ∧ (uj base a).netloc = base.netloc ∧
        u = stripFragment (uj base a) := by
  rw [extract_links, mem_extract_links_aux]
  simp

theorem nodup_extract_links_aux (uj : Url → String → Url) (base : Url)
    (as : List String) (acc : List Url) (hacc : acc.Nodup) :
    (as.foldl
      (fun links a =>
        if (uj base a).netloc = base.netloc then
          setAdd links (stripFragment (uj base a))
        else links) acc).Nodup := by
  induction as generalizing acc with
  | nil => exact hacc
  | cons a as ih =>
    simp only [List.foldl_cons]
    by_cases h : (uj base a).netloc = base.netloc
    · rw [if_pos h]
      exact ih _ (nodup_setAdd hacc)
    · rw [if_neg h]
      exact ih _ hacc

/-- The list `extract_links` returns is duplicate-free: it models a set. -/
theorem nodup_extract_links (fa : String → List String) (uj : Url → String → Url)
    (base : Url) (html : String) : (extract_links fa uj base html).Nodup :=
  nodup_extract_links_aux uj base (fa html) [] List.nodup_nil

theorem search_keywords_aux (p : String → Bool) (kws : List String)
    (acc : List String) :
    kws.foldl (fun found w => if p w then found ++ [w] else found) acc =
      acc ++ kws.filter p := by
  induction kws generalizing acc with
  | nil => simp
  | cons w ws ih =>
    cases h : p w <;> simp [List.filter_cons, h, ih]

/-- `search_keywords` is the order-preserving filter of the keyword list by
literal substring occurrence in the extracted text. -/
theorem search_keywords_eq_filter (gt : String → String) (html : String)
    (kws : List String) :
    search_keywords gt html kws = kws.filter (fun w => strContains (gt html) w) := by
  rw [search_keywords]
  simpa using search_keywords_aux (fun w => strContains (gt html) w) kws []

/-- `strContains` decides literal substring containment on the character
lists of the two strings. -/
theorem strContains_iff (haystack needle : String) :
    strContains haystack needle = true ↔ needle.data <:+: haystack.data := by
  simp [strContains]

/-! ### The crawl-loop invariant -/

/-- Whether a dequeued URL is charged against the page budget: its fetch
result is truthy (`if not html` fails), that is, some non-empty body text. -/
def charged (env : Env) (u : Url) : Bool :=
  match env.fetch u with
  | none => false
  | some h => decide (h ≠ "")

/-- The loop invariant of one domain crawl, over the instrumented state:
the fetch log is duplicate-free (each URL fetched at most once) and inside
the visited set; the budget counter never exceeds the budget and equals the
number of logged fetches with a truthy result; every visited, frontier and
ever-enqueued URL has the netloc `D` of the seed; and every match record
carries a URL that was actually dequeued and fetched. -/
structure CrawlInv (env : Env) (D : String) (max_pages : Nat)
    (s : CrawlState) : Prop where
  log_nodup : s.fetch_log.Nodup
  log_sub_visited : s.fetch_log ⊆ s.visited
  pages_le : s.pages_crawled ≤ max_pages
  pages_eq : s.pages_crawled = s.fetch_log.countP (charged env)
  visited_netloc : ∀ u ∈ s.visited, u.netloc = D
  frontier_netloc : ∀ u ∈ s.to_visit, u.netloc = D
  enqueue_netloc : ∀ u ∈ s.enqueue_log, u.netloc = D
  matches_in_log : ∀ m ∈ s.found_matches, m.1 ∈ s.fetch_log

/-- Every same-domain link that passes the not-yet-visited filter has the
netloc of the page it was extracted from. -/
theorem netloc_of_filtered_link (fa : String → List String)
    (uj : Url → String → Url) (url : Url) (html : String) (D : String)
    (hD : url.netloc = D) (vis : List Url) :
    ∀ u ∈ (extract_links fa uj url html).filter (fun l => decide (l ∉ vis)),
      u.netloc = D := by
  intro u hu
  rcases (mem_extract_links fa uj url html u).1 (List.mem_filter.1 hu).1 with
    ⟨a, _, hbn, rfl⟩
  show (uj url a).netloc = D
  exact hbn.trans hD

/-- Preservation: the crawl-loop invariant holds of the final state whenever
it holds of the starting state. -/
theorem crawl_loop_inv (env : Env) (keywords : List String) (max_pages : Nat)
    (D : String) (s : CrawlState) (h : CrawlInv env D max_pages s) :
    CrawlInv env D max_pages (crawl_loop env keywords max_pages s) := by
  induction s using crawl_loop.induct env keywords max_pages with
  | case1 s hq =>
    rw [crawl_loop, hq]
    exact h
  | case2 s url rest hq hp hv ih =>
    rw [crawl_loop, hq]
    simp only [dif_pos hp, if_pos hv]
    exact ih
      { log_nodup := h.log_nodup
        log_sub_visited := h.log_sub_visited
        pages_le := h.pages_le
        pages_eq := h.pages_eq
        visited_netloc := h.visited_netloc
        frontier_netloc := fun u hu =>
          h.frontier_netloc u (by rw [hq]; exact List.mem_cons_of_mem _ hu)
        enqueue_netloc := h.enqueue_netloc
        matches_in_log := h.matches_in_log }
  | case3 s url rest hq hp hv hf ih =>
    have hurl_net : url.netloc = D :=
      h.frontier_netloc url (by rw [hq]; exact List.mem_cons_self _ _)
    have hurl_log : url ∉ s.fetch_log := fun hm => hv (h.log_sub_visited hm)
    rw [crawl_loop, hq]
    simp only [dif_pos hp, if_neg hv, hf]
    exact ih
      { log_nodup := nodup_append_singleton h.log_nodup hurl_log
        log_sub_visited := fun x hx => by
          rcases mem_append_singleton.1 hx with hx | rfl
          · exact mem_append_singleton.2 (Or.inl (h.log_sub_visited hx))
          · exact mem_append_singleton.2 (Or.inr rfl)
        pages_le := h.pages_le
        pages_eq := by
          rw [countP_append_singleton]
          simp [charged, hf, h.pages_eq]
        visited_netloc := fun u hu => by
          rcases mem_append_singleton.1 hu with hu | rfl
          · exact h.visited_netloc u hu
          · exact hurl_net
        frontier_netloc := fun u hu =>
          h.frontier_netloc u (by rw [hq]; exact List.mem_cons_of_mem _ hu)
        enqueue_netloc := h.enqueue_netloc
        matches_in_log := fun m hm =>
          mem_append_singleton.2 (Or.inl (h.matches_in_log m hm)) }
  | case4 s url rest hq hp hv hf ih =>
    have hurl_net : url.netloc = D :=
      h.frontier_netloc url (by rw [hq]; exact List.mem_cons_self _ _)
    have hurl_log : url ∉ s.fetch_log := fun hm => hv (h.log_sub_visited hm)
    rw [crawl_loop, hq]
    simp only [dif_pos hp, if_neg hv, hf]
    exact ih
      { log_nodup := nodup_append_singleton h.log_nodup hurl_log
        log_sub_visited := fun x hx => by
          rcases mem_append_singleton.1 hx with hx | rfl
          · exact mem_append_singleton.2 (Or.inl (h.log_sub_visited hx))
          · exact mem_append_singleton.2 (Or.inr rfl)
        pages_le := h.pages_le
        pages_eq := by
          rw [countP_append_singleton]
          simp [charged, hf, h.pages_eq]
        visited_netloc := fun u hu => by
          rcases mem_append_singleton.1 hu with hu | rfl
          · exact h.visited_netloc u hu
          · exact hurl_net
        frontier_netloc := fun u hu =>
          h.frontier_netloc u (by rw [hq]; exact List.mem_cons_of_mem _ hu)
        enqueue_netloc := h.enqueue_netloc
        matches_in_log := fun m hm =>
          mem_append_singleton.2 (Or.inl (h.matches_in_log m hm)) }
  | case5 s url rest hq hp hv html hf hh ih =>
    have hurl_net : url.netloc = D :=
      h.frontier_netloc url (by rw [hq]; exact List.mem_cons_self _ _)
    have hurl_log : url ∉ s.fetch_log := fun hm => hv (h.log_sub_visited hm)
    rw [crawl_loop, hq]
    simp only [dif_pos hp, if_neg hv, hf, if_neg hh]
    exact ih
      { log_nodup := nodup_append_singleton h.log_nodup hurl_log
        log_sub_visited := fun x hx => by
          rcases mem_append_singleton.1 hx with hx | rfl
          · exact mem_append_singleton.2 (Or.inl (h.log_sub_visited hx))
          · exact mem_append_singleton.2 (Or.inr rfl)
        pages_le := hp
        pages_eq := by
          rw [countP_append_singleton]
          simp [charged, hf, hh, h.pages_eq]
        visited_netloc := fun u hu => by
          rcases mem_append_singleton.1 hu with hu | rfl
          · exact h.visited_netloc u hu
          · exact hurl_net
        frontier_netloc := fun u hu => by
          rcases List.mem_append.1 hu with hu | hu
          · exact h.frontier_netloc u (by rw [hq]; exact List.mem_cons_of_mem _ hu)
          · exact netloc_of_filtered_link env.find_all env.urljoin url html D
              hurl_net _ u hu
        enqueue_netloc := fun u hu => by
          rcases List.mem_append.1 hu with hu | hu
          · exact h.enqueue_netloc u hu
          · exact netloc_of_filtered_link env.find_all env.urljoin url html D
              hurl_net _ u hu
        matches_in_log := fun m hm => by
          rcases List.mem_append.1 hm with hm | hm
          · exact mem_append_singleton.2 (Or.inl (h.matches_in_log m hm))
          · rcases List.mem_map.1 hm with ⟨w, _, rfl⟩
            exact mem_append_singleton.2 (Or.inr rfl) }
  | case6 s url rest hq hp =>
    rw [crawl_loop, hq]
    simp only [dif_neg hp]
    exact h

/-- The loop invariant holds of the final state of a whole domain crawl. -/
theorem crawl_domain_inv (env : Env) (domain : String) (keywords : List String)
    (max_pages : Nat) :
    CrawlInv env domain max_pages (crawl_domain env domain keywords max_pages) := by
  apply crawl_loop_inv
  exact
    { log_nodup := List.nodup_nil
      log_sub_visited := fun x hx => absurd hx (List.not_mem_nil x)
      pages_le := Nat.zero_le _
      pages_eq := rfl
      visited_netloc := fun u hu => absurd hu (List.not_mem_nil u)
      frontier_netloc := fun u hu => by
        rcases List.mem_singleton.1 hu with rfl
        rfl
      enqueue_netloc := fun u hu => by
        rcases List.mem_singleton.1 hu with rfl
        rfl
      matches_in_log := fun m hm => absurd hm (List.not_mem_nil m) }

/-- The loop only returns once the frontier is empty or the budget reached. -/
theorem crawl_loop_exhausted (env : Env) (keywords : List String)
    (max_pages : Nat) (s : CrawlState) :
    (crawl_loop env keywords max_pages s).to_visit = [] ∨
      max_pages ≤ (crawl_loop env keywords max_pages s).pages_crawled := by
  induction s using crawl_loop.induct env keywords max_pages with
  | case1 s hq =>
    rw [crawl_loop, hq]
    exact Or.inl hq
  | case2 s url rest hq hp hv ih =>
    rw [crawl_loop, hq]
    simp only [dif_pos hp, if_pos hv]
    exact ih
  | case3 s url rest hq hp hv hf ih =>
    rw [crawl_loop, hq]
    simp only [dif_pos hp, if_neg hv, hf]
    exact ih
  | case4 s url rest hq hp hv hf ih =>
    rw [crawl_loop, hq]
    simp only [dif_pos hp, if_neg hv, hf]
    exact ih
  | case5 s url rest hq hp hv html hf hh ih =>
    rw [crawl_loop, hq]
    simp only [dif_pos hp, if_neg hv, hf, if_neg hh]
    exact ih
  | case6 s url rest hq hp =>
    rw [crawl_loop, hq]
    simp only [dif_neg hp]
    exact Or.inr (Nat.le_of_not_lt hp)

/-- A state that fails the loop guard is a fixed point of the loop: once the
frontier is empty or the budget is reached, no further transition happens. -/
theorem crawl_loop_fixed (env : Env) (keywords : List String) (max_pages : Nat)
    (s : CrawlState) (h : s.to_visit = [] ∨ max_pages ≤ s.pages_crawled) :
    crawl_loop env keywords max_pages s = s := by
  rcases h with h | h
  · rw [crawl_loop, h]
  · rw [crawl_loop]
    rcases hq : s.to_visit with _ | ⟨url, rest⟩
    · rfl
    · simp only [dif_neg (Nat.not_lt.2 h)]

/-! ### Claim theorems -/

/-- C1: during one domain crawl, `fetch_page` is invoked on any URL at most
once — the instrumented fetch log is duplicate-free — even when a URL is
discovered via several distinct anchors and enqueued more than once; the
visited check happens at dequeue time and every fetched URL is in the visited
set, having been marked visited before the fetch. -/
theorem crawl_domain_fetches_each_url_at_most_once (env : Env) (domain : String)
    (keywords : List String) (max_pages : Nat) :
    (crawl_domain env domain keywords max_pages).fetch_log.Nodup ∧
      (crawl_domain env domain keywords max_pages).fetch_log ⊆
        (crawl_domain env domain keywords max_pages).visited :=
  ⟨(crawl_domain_inv env domain keywords max_pages).log_nodup,
   (crawl_domain_inv env domain keywords max_pages).log_sub_visited⟩

/-- C2: the pages-crawled counter of a domain crawl never exceeds the
configured max-pages budget, and it equals the number of logged fetches whose
result was truthy HTML — so dequeues of already-visited URLs (which are never
logged) and fetches returning an absent result are not charged against the
budget. -/
theorem crawl_domain_respects_page_budget (env : Env) (domain : String)
    (keywords : List String) (max_pages : Nat) :
    (crawl_domain env domain keywords max_pages).pages_crawled ≤ max_pages ∧
      (crawl_domain env domain keywords max_pages).pages_crawled =
        (crawl_domain env domain keywords max_pages).fetch_log.countP (charged env) :=
  ⟨(crawl_domain_inv env domain keywords max_pages).pages_le,
   (crawl_domain_inv env domain keywords max_pages).pages_eq⟩

/-- C4: keyword search is exactly the order-preserving filter of the word
list by literal substring occurrence in the extracted text: the result is the
subsequence of the word list of those words occurring in the text (matching
is case-sensitive character equality, with no word-boundary requirement, so a
word embedded in a larger unbroken string counts), and the function is a pure
function of the text and the word list. -/
theorem search_keywords_is_ordered_substring_filter (gt : String → String)
    (html : String) (kws : List String) :
    search_keywords gt html kws =
        kws.filter (fun w => decide (w.data <:+: (gt html).data)) ∧
      (search_keywords gt html kws).Sublist kws ∧
      ∀ w, w ∈ search_keywords gt html kws ↔
        w ∈ kws ∧ w.data <:+: (gt html).data := by
  refine ⟨search_keywords_eq_filter gt html kws, ?_, ?_⟩
  · rw [search_keywords_eq_filter]
    exact List.filter_sublist kws
  · intro w
    rw [search_keywords_eq_filter, List.mem_filter, strContains_iff]

/-- C5: link extraction resolves each anchor href against the base URL,
keeps a resolved link exactly when its netloc equals the netloc of the base
URL, strips the fragment of every kept link, and returns a deduplicated set
(a duplicate-free list). -/
theorem extract_links_same_host_fragmentless_dedup (fa : String → List String)
    (uj : Url → String → Url) (base : Url) (html : String) :
    (extract_links fa uj base html).Nodup ∧
      ∀ u, u ∈ extract_links fa uj base html ↔
        ∃ a, a ∈ fa html ∧ (uj base a).netloc = base.netloc ∧
          u = stripFragment (uj base a) :=
  ⟨nodup_extract_links fa uj base html, mem_extract_links fa uj base html⟩

/-- C8: the domain crawl loop terminates — `crawl_domain` is a total function
of its (finite-links-per-page) fetch and extraction environment, defined by
well-founded recursion on (budget remaining, frontier length) — and its final
state is exhausted: the frontier is empty or the budget is reached, and the
loop makes no further transition from it. -/
theorem crawl_domain_terminates_exhausted (env : Env) (domain : String)
    (keywords : List String) (max_pages : Nat) :
    ((crawl_domain env domain keywords max_pages).to_visit = [] ∨
      max_pages ≤ (crawl_domain env domain keywords max_pages).pages_crawled) ∧
    crawl_loop env keywords max_pages (crawl_domain env domain keywords max_pages) =
      crawl_domain env domain keywords max_pages := by
  refine ⟨crawl_loop_exhausted env keywords max_pages _, ?_⟩
  exact crawl_loop_fixed env keywords max_pages _
    (crawl_loop_exhausted env keywords max_pages _)

/-- C10: every URL ever placed on the frontier of a domain crawl (the seed
and every enqueued link, recorded in the enqueue log) — and hence every URL
ever fetched, every visited URL and every URL still on the frontier at the
end — has netloc exactly the seed domain. -/
theorem crawl_domain_frontier_stays_on_seed_domain (env : Env) (domain : String)
    (keywords : List String) (max_pages : Nat) :
    (crawl_domain env domain keywords max_pages).enqueue_log.all
        (fun u => decide (u.netloc = domain)) = true ∧
      (crawl_domain env domain keywords max_pages).fetch_log.all
        (fun u => decide (u.netloc = domain)) = true ∧
      (crawl_domain env domain keywords max_pages).visited.all
        (fun u => decide (u.netloc = domain)) = true ∧
      (crawl_domain env domain keywords max_pages).to_visit.all
        (fun u => decide (u.netloc = domain)) = true := by
  have h := crawl_domain_inv env domain keywords max_pages
  refine ⟨?_, ?_, ?_, ?_⟩
  · exact List.all_eq_true.2 fun u hu => decide_eq_true (h.enqueue_netloc u hu)
  · exact List.all_eq_true.2 fun u hu =>
      decide_eq_true (h.visited_netloc u (h.log_sub_visited hu))
  · exact List.all_eq_true.2 fun u hu => decide_eq_true (h.visited_netloc u hu)
  · exact List.all_eq_true.2 fun u hu => decide_eq_true (h.frontier_netloc u hu)

/-- The except-arm of `fetch_page` is entered exactly by a raised
`RequestException`: a transport failure, or a 4xx/5xx status that
`raise_for_status` turns into an exception. -/
theorem attempt_raised_of_error (net : Network) (u : Url)
    (h : net u = GetOutcome.exn ∨
        ∃ st ct t, net u = GetOutcome.resp st ct t ∧ 400 ≤ st ∧ st < 600) :
    attempt net u = AttemptResult.raised := by
  rcases h with h | ⟨st, ct, t, h, h1, h2⟩
  · simp [attempt, h]
  · have hrs : raise_for_status st = true := by
      rw [raise_for_status, Bool.and_eq_true, decide_eq_true_eq, decide_eq_true_eq]
      exact ⟨h1, h2⟩
    simp [attempt, h, hrs]

/-- A network on which every request raises a transport exception. -/
def netExn : Network := fun _ => GetOutcome.exn

/-- A network on which every request yields HTTP 300 with an HTML body. -/
def netStatus300 : Network := fun _ => GetOutcome.resp 300 "text/html" "body"

/-- A network on which every request yields HTTP 200 with a JSON body. -/
def netNonHtml : Network := fun _ => GetOutcome.resp 200 "application/json" "x"

/-- C6 counterexample: a response with status 300 — not a 2xx status — does
not trigger any retry: `raise_for_status` raises only for 4xx/5xx, so
`fetch_page` issues a single request and even returns the body.  The claim
that any non-2xx status causes exactly one alternate-scheme retry is
therefore false on this input. -/
theorem fetch_page_no_retry_on_status_300 :
    netStatus300 (seed_url "site.test") = GetOutcome.resp 300 "text/html" "body" ∧
      ¬ (200 ≤ 300 ∧ 300 ≤ 299) ∧
      fetch_page netStatus300 (seed_url "site.test") =
        (some "body", [seed_url "site.test"]) :=
  ⟨rfl, by decide, by decide⟩

/-- C6 (amended): `fetch_page` issues at most two requests; the fallback URL
differs from the requested URL only in its scheme, toggled between https and
http; and when the initial request raises — a transport-level failure or a
4xx/5xx status, the statuses `raise_for_status` raises on — exactly one retry
is made, on the fallback URL, and if that attempt also fails the function
returns an absent result rather than raising. -/
theorem fetch_page_single_scheme_fallback_on_error (net : Network) (url : Url) :
    ((fetch_page net url).2 = [url] ∨
      (fetch_page net url).2 = [url, fallback_url url]) ∧
    (fallback_url url).netloc = url.netloc ∧
    (fallback_url url).path = url.path ∧
    (fallback_url url).query = url.query ∧
    (fallback_url url).scheme = (if url.scheme = "https" then "http" else "https") ∧
    ((net url = GetOutcome.exn ∨
        ∃ st ct t, net url = GetOutcome.resp st ct t ∧ 400 ≤ st ∧ st < 600) →
      (fetch_page net url).2 = [url, fallback_url url] ∧
      ((∀ t, attempt net (fallback_url url) ≠ AttemptResult.body t) →
        (fetch_page net url).1 = none)) := by
  refine ⟨?_, rfl, rfl, rfl, rfl, ?_⟩
  · rcases hA : attempt net url with t | _ | _
    · exact Or.inl (by simp [fetch_page, hA])
    · rcases hB : attempt net (fallback_url url) with t | _ | _ <;>
        exact Or.inr (by simp [fetch_page, hA, hB])
    · exact Or.inl (by simp [fetch_page, hA])
  · intro h
    have hA : attempt net url = AttemptResult.raised := attempt_raised_of_error net url h
    rcases hB : attempt net (fallback_url url) with t | _ | _
    · exact ⟨by simp [fetch_page, hA, hB], fun hne => absurd rfl (hne t)⟩
    · exact ⟨by simp [fetch_page, hA, hB], fun _ => by simp [fetch_page, hA, hB]⟩
    · exact ⟨by simp [fetch_page, hA, hB], fun _ => by simp [fetch_page, hA, hB]⟩

/-- C6 witness: on a network where every request raises, the crawl of the
secure seed issues exactly the primary request and one toggled-scheme retry,
and returns an absent result. -/
theorem fetch_page_single_scheme_fallback_on_error_witness :
    (fetch_page netExn (seed_url "site.test")).2 =
        [seed_url "site.test", fallback_url (seed_url "site.test")] ∧
      (fetch_page netExn (seed_url "site.test")).1 = none := by
  have h := (fetch_page_single_scheme_fallback_on_error netExn
    (seed_url "site.test")).2.2.2.2.2 (Or.inl rfl)
  exact ⟨h.1, h.2 (fun t ht => AttemptResult.noConfusion ht)⟩

/-- C7 counterexample: a successful 200 response whose content type does not
indicate HTML makes `fetch_page` return an absent result immediately: only
one request is issued and no alternate-scheme attempt is made, contrary to
the claim that a non-HTML success is recovered via the scheme fallback like a
transport error. -/
theorem fetch_page_no_fallback_on_non_html_success :
    netNonHtml (seed_url "site.test") =
        GetOutcome.resp 200 "application/json" "x" ∧
      (200 ≤ 200 ∧ 200 ≤ 299) ∧
      strContains "application/json" "text/html" = false ∧
      fetch_page netNonHtml (seed_url "site.test") =
        (none, [seed_url "site.test"]) :=
  ⟨rfl, by decide, by decide, by decide⟩

/-- C7 (amended): a response that does not raise (no transport failure, and a
status outside 4xx/5xx) and whose content type does not contain text/html
yields an absent result with no fallback attempt: the request list is the
primary URL alone.  The scheme fallback is reserved for raised
RequestExceptions, that is, transport failures and 4xx/5xx statuses. -/
theorem fetch_page_absent_on_non_html_success (net : Network) (url : Url)
    (st : Nat) (ct t : String) (hresp : net url = GetOutcome.resp st ct t)
    (hst : raise_for_status st = false)
    (hct : strContains ct "text/html" = false) :
    fetch_page net url = (none, [url]) := by
  have hA : attempt net url = AttemptResult.fellThrough := by
    simp [attempt, hresp, hst, hct]
  simp [fetch_page, hA]

/-- C7 witness: the amended statement applied to the 200 application/json
network. -/
theorem fetch_page_absent_on_non_html_success_witness :
    fetch_page netNonHtml (seed_url "a.test") = (none, [seed_url "a.test"]) :=
  fetch_page_absent_on_non_html_success netNonHtml (seed_url "a.test")
    200 "application/json" "x" rfl (by decide) (by decide)

/-- C3 (code bug demonstration): when one domain task raises an unhandled
exception, `future.result()` re-raises it inside `run`, the `with` block
re-raises after the executor shuts down, and `save_results` is never reached:
no output file is written and the matches gathered by the other domains are
lost.  With no failing task the same matches are written.  This contradicts
the claimed isolation, under which the first run would still write the
gathered record. -/
theorem run_drops_results_when_a_domain_task_fails :
    run [(true, [(seed_url "d1.test", "hello")]), (false, [])] = none ∧
      run [(true, [(seed_url "d1.test", "hello")])] =
        some [(seed_url "d1.test", "hello")] := by
  constructor <;> rfl

/-! ### Step equations of the crawl loop, for evaluating concrete runs -/

theorem crawl_loop_step_nil (env : Env) (keywords : List String)
    (max_pages : Nat) (s : CrawlState) (h : s.to_visit = []) :
    crawl_loop env keywords max_pages s = s := by
  rw [crawl_loop, h]

theorem crawl_loop_step_proc (env : Env) (keywords : List String)
    (max_pages : Nat) (s : CrawlState) (url : Url) (rest : List Url)
    (html : String) (hq : s.to_visit = url :: rest)
    (hp : s.pages_crawled < max_pages) (hv : url ∉ s.visited)
    (hf : env.fetch url = some html) (hh : html ≠ "") :
    crawl_loop env keywords max_pages s =
      crawl_loop env keywords max_pages
        { visited := s.visited ++ [url],
          to_visit := rest ++ (extract_links env.find_all env.urljoin url html).filter
              (fun l => decide (l ∉ s.visited ++ [url])),
          pages_crawled := s.pages_crawled + 1,
          found_matches := s.found_matches ++
              (search_keywords env.get_text html keywords).map (fun w => (url, w)),
          fetch_log := s.fetch_log ++ [url],
          enqueue_log := s.enqueue_log ++
              (extract_links env.find_all env.urljoin url html).filter
                (fun l => decide (l ∉ s.visited ++ [url])) } := by
  conv_lhs => rw [crawl_loop, hq]
  simp only [dif_pos hp, if_neg hv, hf, if_neg hh]

/-! ### The scheme-fallback attribution scenario -/

/-- The secure seed of the scenario domain. -/
def c9_seed : Url := seed_url "d.test"

/-- Its insecure scheme-fallback twin. -/
def c9_fb : Url := fallback_url c9_seed

/-- The one same-domain page the served content links to. -/
def c9_p2 : Url :=
  { scheme := "https", netloc := "d.test", path := "/p2", query := "", fragment := "" }

/-- Scenario network: the secure seed fails at the transport level, its
insecure fallback twin serves an HTML page containing the keyword and one
relative link, and the second page is served over https with no links. -/
def c9_net : Network := fun u =>
  if u = c9_seed then GetOutcome.exn
  else if u = c9_fb then GetOutcome.resp 200 "text/html" "w1 here"
  else if u = c9_p2 then GetOutcome.resp 200 "text/html" "no keywords"
  else GetOutcome.exn

/-- Scenario environment: `fetch_page` over the scenario network, identity
text extraction, one anchor `/p2` on the fallback-served page, and a resolver
joining `/p2` against the base URL. -/
def c9_env : Env :=
  { fetch := fun u => (fetch_page c9_net u).1,
    get_text := id,
    find_all := fun h => if h = "w1 here" then ["/p2"] else [],
    urljoin := fun base a =>
      if a = "/p2" then
        { scheme := base.scheme, netloc := base.netloc, path := "/p2",
          query := "", fragment := "" }
      else base }

/-- Full evaluation of the scenario crawl: two pages processed, one match
record, attributed to the https seed. -/
theorem c9_eval :
    crawl_domain c9_env "d.test" ["w1"] 10 =
      { visited := [c9_seed, c9_p2], to_visit := [], pages_crawled := 2,
        found_matches := [(c9_seed, "w1")], fetch_log := [c9_seed, c9_p2],
        enqueue_log := [c9_seed, c9_p2] } := by
  rw [crawl_domain]
  rw [crawl_loop_step_proc c9_env ["w1"] 10 _ c9_seed [] "w1 here" rfl
    (by decide) (by decide) (by decide) (by decide)]
  show crawl_loop c9_env ["w1"] 10
      { visited := [c9_seed], to_visit := [c9_p2], pages_crawled := 1,
        found_matches := [(c9_seed, "w1")], fetch_log := [c9_seed],
        enqueue_log := [c9_seed, c9_p2] } = _
  rw [crawl_loop_step_proc c9_env ["w1"] 10 _ c9_p2 [] "no keywords" rfl
    (by decide) (by decide) (by decide) (by decide)]
  show crawl_loop c9_env ["w1"] 10
      { visited := [c9_seed, c9_p2], to_visit := [], pages_crawled := 2,
        found_matches := [(c9_seed, "w1")], fetch_log := [c9_seed, c9_p2],
        enqueue_log := [c9_seed, c9_p2] } = _
  exact crawl_loop_step_nil c9_env ["w1"] 10 _ rfl

/-- C9: content served via the scheme fallback is attributed to the
originally dequeued URL.  In general, every match record of any domain crawl
carries a URL that was dequeued and passed to `fetch_page` (the fallback URL
exists only inside `fetch_page`, which returns the body text alone).  In the
concrete scenario the seed is served through its http twin: `fetch_page`
requests both URLs and returns only the body; the match is recorded against
the https seed, links are resolved against it, and the http fallback URL
never enters the visited set, the frontier, the fetch log, or the enqueue
log. -/
theorem crawl_domain_attributes_fallback_content_to_original_url :
    (∀ (env : Env) (domain : String) (keywords : List String) (max_pages : Nat),
      ((crawl_domain env domain keywords max_pages).found_matches.map Prod.fst).all
        (fun u => decide (u ∈ (crawl_domain env domain keywords max_pages).fetch_log)) =
        true) ∧
    fetch_page c9_net c9_seed = (some "w1 here", [c9_seed, c9_fb]) ∧
    (crawl_domain c9_env "d.test" ["w1"] 10).found_matches = [(c9_seed, "w1")] ∧
    c9_fb ∉ (crawl_domain c9_env "d.test" ["w1"] 10).visited ∧
    c9_fb ∉ (crawl_domain c9_env "d.test" ["w1"] 10).to_visit ∧
    c9_fb ∉ (crawl_domain c9_env "d.test" ["w1"] 10).fetch_log ∧
    c9_fb ∉ (crawl_domain c9_env "d.test" ["w1"] 10).enqueue_log := by
  refine ⟨?_, by decide, ?_, ?_, ?_, ?_, ?_⟩ <;>
    first
      | (intro env domain keywords max_pages
         exact List.all_eq_true.2 fun u hu => by
          rcases List.mem_map.1 hu with ⟨m, hm, rfl⟩
          exact decide_eq_true
            ((crawl_domain_inv env domain keywords max_pages).matches_in_log m hm))
      | (rw [c9_eval]; try decide)

end BanglaCrawler
